import Mathlib

/- Shallow embedding of the lab-note structuring engine of the Picnotebook
repository: class `LabNoteParser` in src/lab_note_parser.py (text parsing,
section segmentation, measurement extraction, SQLite-backed record store,
search and suggestions) and the `/search_suggestions` endpoint of src/app.py.

Text is modelled as Lean `String` (in this toolchain a `String` wraps a
`List Char`), numeric measurement values as `ℚ` (the float values occurring
here are small decimals, represented exactly), SQLite tables as Lean lists of
row structures, and wall-clock time as an explicit parameter.  Python regexes
are embedded as executable matching functions that follow the exact pattern
literals of the source, including alternation order, greedy/lazy priority and
the `re.IGNORECASE` flag (ASCII case folding; none of the patterns contain
cased non-ASCII characters). -/

/-! ## Python string primitives -/

/-- Whitespace as recognised by Python `str.strip` and regex `\s`
(ASCII range, which covers the inputs of this development). -/
def isPySpace (c : Char) : Bool :=
  c == ' ' || c == '\t' || c == '\n' || c == '\r' || c == '\x0b' || c == '\x0c'

/-- ASCII lower-casing, the effect of `re.IGNORECASE` on the pattern
alphabet used by the source (letters, digits, punctuation, and the
uncased character U+C9F8 appearing in the temperature pattern). -/
def lowerChar (c : Char) : Char :=
  if 'A' ≤ c ∧ c ≤ 'Z' then Char.ofNat (c.toNat + 32) else c

/-- Python `str.strip()` on a character list. -/
def stripL (l : List Char) : List Char :=
  ((l.dropWhile isPySpace).reverse.dropWhile isPySpace).reverse

/-- Python `str.strip()`. -/
def pystrip (s : String) : String := ⟨stripL s.data⟩

/-- Python `text.split('\n')` on a character list: always returns at least
one piece, a trailing newline yields a trailing empty piece. -/
def splitNlL : List Char → List (List Char)
  | [] => [[]]
  | c :: t =>
    if c = '\n' then [] :: splitNlL t
    else
      match splitNlL t with
      | h :: r => (c :: h) :: r
      | [] => [[c]]

/-- Python `text.split('\n')`. -/
def splitNl (s : String) : List String := (splitNlL s.data).map String.mk

/-- Python `'\n'.join(parts)`. -/
def joinNl (parts : List String) : String := String.intercalate "\n" parts

/-- Does `p` occur at the very start of `l`? (case-sensitive). -/
def beginsWith : List Char → List Char → Bool
  | [], _ => true
  | _ :: _, [] => false
  | p :: ps, c :: cs => p == c && beginsWith ps cs

/-- Case-sensitive literal substring occurrence.  This is NOT the model of
the source's SQL `LIKE` queries (see `likeMatch` below); it renders the
claims' words "the query occurs as a substring" and is used only to state
counterexamples against that reading. -/
def containsSub (q : List Char) : List Char → Bool
  | [] => beginsWith q []
  | s@(_ :: t) => beginsWith q s || containsSub q t

/-- The claims' reading, "the query occurs as a substring of the field":
case-sensitive literal containment (stated from the spec's words, for
comparison with the `LIKE` semantics the code actually has). -/
def litSubstr (q s : String) : Bool := containsSub q.data s.data

/-- SQLite `LIKE` pattern matching, default (ESCAPE-free) form: `%` in the
pattern matches any character run, `_` matches exactly one character, and
any other pattern character matches itself up to ASCII case folding —
SQLite's `LIKE` is case-insensitive for ASCII by default and the source
never sets `case_sensitive_like`.  The fuel argument only serves structural
recursion: every recursive call shortens the pattern or the text, so the
fuel supplied by `likeMatch` is never exhausted. -/
def likeMatchAux : Nat → List Char → List Char → Bool
  | 0, _, _ => false
  | _ + 1, [], t => t.isEmpty
  | fuel + 1, '%' :: ps, t =>
    likeMatchAux fuel ps t ||
      (match t with
       | [] => false
       | _ :: ts => likeMatchAux fuel ('%' :: ps) ts)
  | fuel + 1, '_' :: ps, t =>
    (match t with
     | [] => false
     | _ :: ts => likeMatchAux fuel ps ts)
  | fuel + 1, p :: ps, t =>
    (match t with
     | [] => false
     | c :: ts => (lowerChar p == lowerChar c) && likeMatchAux fuel ps ts)

/-- SQLite `text LIKE pattern` for a whole pattern and text. -/
def likeMatch (ps t : List Char) : Bool :=
  likeMatchAux (ps.length + t.length + 1) ps t

/-- `col LIKE ?` with the bound pattern `f"%{query}%"`, exactly as built by
`search_experiments` and `get_search_suggestions`: ASCII-case-insensitive,
and `%` or `_` inside the query act as wildcards. -/
def likeContains (q s : String) : Bool :=
  likeMatch ('%' :: (q.data ++ ['%'])) s.data

/-! ## Section segmentation (`LabNoteParser._extract_sections`)

Each section-header keyword regex `^{keyword}:?` (re.IGNORECASE) is embedded
as a deterministic prefix matcher returning the number of characters
consumed; determinism is faithful because in every keyword the optional
pieces (`s?`, `:?`) are followed by distinct literals or nothing, so greedy
matching never needs to backtrack. -/

/-- A keyword prefix matcher: consumed length at the start of the line. -/
def K : Type := List Char → Option Nat

/-- Case-insensitive literal: consumed length (= pattern length) or failure. -/
def litCIAux : List Char → List Char → Option Nat
  | [], _ => some 0
  | _ :: _, [] => none
  | p :: ps, c :: cs =>
    if lowerChar p = lowerChar c then (litCIAux ps cs).map (· + 1) else none

/-- Case-insensitive literal keyword piece. -/
def kLit (pat : String) : K := fun l => litCIAux pat.data l

/-- Sequencing of keyword pieces. -/
def kThen (a b : K) : K := fun l =>
  match a l with
  | some n =>
    match b (l.drop n) with
    | some m => some (n + m)
    | none => none
  | none => none

/-- Regex `s?`: greedily consume one `s`/`S` if present. -/
def kOptS : K := fun l =>
  match l with
  | c :: _ => if lowerChar c = 's' then some 1 else some 0
  | [] => some 0

/-- Regex `\s+`: one or more whitespace characters, greedy. -/
def kWs1 : K := fun l =>
  let n := (l.takeWhile isPySpace).length
  if n = 0 then none else some n

/-- Regex `\s*`: any whitespace run, greedy. -/
def kWs0 : K := fun l => some (l.takeWhile isPySpace).length

/-- Ordered alternation: first matcher that succeeds wins. -/
def firstK : List K → K
  | [], _ => none
  | k :: ks, l =>
    match k l with
    | some n => some n
    | none => firstK ks l

/-- The `section_keywords` table of `_extract_sections`, in declaration
order; each entry embeds the source regexes of one section. -/
def sectionKeywords : List (String × List K) :=
  [("methods", [kThen (kLit "method") kOptS, kLit "procedure", kLit "protocol",
      kThen (kLit "experimental") (kThen kWs1 (kLit "setup"))]),
   ("results", [kThen (kLit "result") kOptS, kLit "findings", kLit "data",
      kThen (kLit "outcome") kOptS]),
   ("observations", [kThen (kLit "observation") kOptS, kThen (kLit "note") kOptS,
      kThen (kLit "comment") kOptS]),
   ("materials", [kThen (kLit "material") kOptS, kThen (kLit "reagent") kOptS,
      kLit "equipment", kLit "supplies"]),
   ("procedure", [kLit "procedure", kThen (kLit "step") kOptS, kLit "process"]),
   ("discussion", [kLit "discussion", kLit "analysis", kLit "interpretation"]),
   ("conclusion", [kLit "conclusion", kLit "summary",
      kThen (kLit "final") (kThen kWs1 (kThen (kLit "thought") kOptS))])]

/-- The seven section names, in declaration order. -/
def sectionNames : List String := sectionKeywords.map Prod.fst

/-- First keyword of any section that matches at the start of the (stripped)
line, in table order; the returned length includes the optional trailing
colon of `^{keyword}:?`. -/
def headerOfAux : List (String × List K) → List Char → Option (String × Nat)
  | [], _ => none
  | (name, ks) :: rest, l =>
    match firstK ks l with
    | some n =>
      some (name, n + (match l.drop n with | ':' :: _ => 1 | _ => 0))
    | none => headerOfAux rest l

/-- Header detection on a stripped line (`re.match(rf"^{keyword}:?", line, re.IGNORECASE)`
tried in `section_keywords` order). -/
def headerOf (line : String) : Option (String × Nat) :=
  headerOfAux sectionKeywords line.data

/-- The `sections` dict initialised with the seven keys, all empty. -/
def initSections : List (String × String) := sectionNames.map (fun n => (n, ""))

/-- Python dict assignment `sections[k] = v`: replace the value of an existing
key, append the pair if the key is absent (the latter never fires here since
the dict is pre-initialised with every possible `current_section`). -/
def setSection (m : List (String × String)) (k : String) (v : String) :
    List (String × String) :=
  if m.any (fun p => p.1 == k) then m.map (fun p => if p.1 == k then (k, v) else p)
  else m ++ [(k, v)]

/-- Lookup of a section body. -/
def lookupSec (m : List (String × String)) (k : String) : Option String :=
  (m.find? (fun p => p.1 == k)).map Prod.snd

/-- Loop state of `_extract_sections`: `current_section`, `section_content`,
and the `sections` dict. -/
structure PState where
  cur : Option String
  buf : List String
  secs : List (String × String)

/-- Save the open section: `sections[current_section] = '\n'.join(section_content).strip()`,
guarded by `if current_section and section_content`. -/
def flushState (st : PState) : List (String × String) :=
  match st.cur with
  | some s => if st.buf ≠ [] then setSection st.secs s (pystrip (joinNl st.buf)) else st.secs
  | none => st.secs

/-- One iteration of the line loop of `_extract_sections`. -/
def stepLine (st : PState) (rawLine : String) : PState :=
  let line := pystrip rawLine
  if line = "" then st
  else
    match headerOf line with
    | some (s, n) =>
      let secs' := flushState st
      let rem := pystrip ⟨line.data.drop n⟩
      let buf' := if rem ≠ "" ∧ rem ≠ ":" then [rem] else []
      ⟨some s, buf', secs'⟩
    | none =>
      match st.cur with
      | some _ => ⟨st.cur, st.buf ++ [line], st.secs⟩
      | none => st

/-- Process a list of lines. -/
def runLines (st : PState) (ls : List String) : PState := ls.foldl stepLine st

/-- `LabNoteParser._extract_sections`. -/
def extract_sections (text : String) : List (String × String) :=
  flushState (runLines ⟨none, [], initSections⟩ (splitNl text))

/-! ## Measurement extraction (`LabNoteParser._extract_measurements`) -/

/-- The character U+C9F8 that the source file (whose bytes are as committed,
with a mangled degree sign) uses in the temperature pattern and unit label;
it is not U+00B0 `°`. -/
def degChar : Char := Char.ofNat 0xC9F8

/-- The unit label of the temperature pattern as it appears in the source. -/
def degUnit : String := ⟨[degChar, 'C']⟩

/-- Ten-based digit value. -/
def digToNat (c : Char) : Nat := c.toNat - 48

/-- Value of a digit run. -/
def natOfDigits (ds : List Char) : Nat := ds.foldl (fun a c => a * 10 + digToNat c) 0

/-- The value `float(match.group(1))` of a matched decimal numeral
`\d+(?:\.\d+)?`, recorded exactly as the mantissa digits and the number of
digits after the point (the numerals extracted here are small decimals, so
Python float rounding never distinguishes the values this development
compares). -/
structure Dec where
  mant : Nat
  fdigits : Nat
deriving DecidableEq, Repr

/-- The rational value denoted by a parsed decimal numeral. -/
def Dec.toRat (d : Dec) : ℚ := (d.mant : ℚ) / (10 : ℚ) ^ d.fdigits

/-- Regex `\d+(?:\.\d+)?` at the current position, greedy, together with
`float()` of the matched text: value and consumed length.  Greedy matching
is faithful: no unit alternative begins with a digit, a dot or whitespace,
so the surrounding patterns never backtrack into the number. -/
def parseNumber (l : List Char) : Option (Dec × Nat) :=
  let ds := l.takeWhile Char.isDigit
  if ds = [] then none
  else
    let n := ds.length
    match l.drop n with
    | '.' :: r2 =>
      let fs := r2.takeWhile Char.isDigit
      if fs = [] then some (⟨natOfDigits ds, 0⟩, n)
      else some (⟨natOfDigits ds * 10 ^ fs.length + natOfDigits fs, fs.length⟩,
        n + 1 + fs.length)
    | _ => some (⟨natOfDigits ds, 0⟩, n)

/-- A number-then-unit measurement pattern `(\d+(?:\.\d+)?)\s*<unit-alternation>`
applied at the current position. -/
def numUnitAt (unitM : K) (l : List Char) : Option (Dec × Nat) :=
  match parseNumber l with
  | some (v, n) =>
    let rest := l.drop n
    let w := (rest.takeWhile isPySpace).length
    match unitM (rest.drop w) with
    | some u => some (v, n + w + u)
    | none => none
  | none => none

/-- The pH pattern `pH:?\s*(\d+(?:\.\d+)?)` applied at the current position. -/
def phAt (l : List Char) : Option (Dec × Nat) :=
  match litCIAux "ph".data l with
  | some k =>
    let l1 := l.drop k
    let c := match l1 with | ':' :: _ => 1 | _ => 0
    let l2 := l1.drop c
    let w := (l2.takeWhile isPySpace).length
    match parseNumber (l2.drop w) with
    | some (v, n) => some (v, k + c + w + n)
    | none => none
  | none => none

/-- Unit alternation of the temperature pattern, in source order. -/
def tempUnit : K :=
  firstK [kLit degUnit, kLit "C",
    kThen (kLit "degree") (kThen kOptS (kThen kWs0 (firstK [kLit "C", kLit "Celsius"])))]

/-- Unit alternation `(?:ml|mL|milliliters?)`. -/
def volUnit : K := firstK [kLit "ml", kLit "mL", kThen (kLit "milliliter") kOptS]

/-- Unit alternation `(?:g|grams?)`. -/
def massUnit : K := firstK [kLit "g", kThen (kLit "gram") kOptS]

/-- Unit alternation `(?:min|minutes?)`. -/
def minUnit : K := firstK [kLit "min", kThen (kLit "minute") kOptS]

/-- Unit alternation `(?:hr|hours?)`. -/
def hrUnit : K := firstK [kLit "hr", kThen (kLit "hour") kOptS]

/-- Unit alternation `(?:%|percent)`. -/
def pctUnit : K := firstK [kLit "%", kLit "percent"]

/-- One extracted measurement, as produced by `_extract_measurements`. -/
structure Meas where
  mtype : String
  value : Dec
  unit : String
  raw_text : String
deriving DecidableEq, Repr

/-- One entry of the `measurement_patterns` table: type label, unit label,
and the embedded regex applied at a position. -/
structure MPat where
  mtype : String
  unit : String
  matchAt : List Char → Option (Dec × Nat)

/-- The `measurement_patterns` table, in source declaration order. -/
def measurement_patterns : List MPat :=
  [⟨"temperature", degUnit, numUnitAt tempUnit⟩,
   ⟨"pH", "", phAt⟩,
   ⟨"volume", "mL", numUnitAt volUnit⟩,
   ⟨"mass", "g", numUnitAt massUnit⟩,
   ⟨"time", "min", numUnitAt minUnit⟩,
   ⟨"time", "hr", numUnitAt hrUnit⟩,
   ⟨"concentration", "M", numUnitAt (kLit "M")⟩,
   ⟨"percentage", "%", numUnitAt pctUnit⟩]

/-- `re.finditer` of one pattern over the text: scan left to right, emit
each leftmost match and continue right after it (advancing at least one
character, as Python does after a zero-width match; all these patterns
consume at least one character anyway).  The fuel argument only serves
structural recursion; every step consumes at least one character, so a fuel
equal to the text length (as supplied by `scanPat`) is never exhausted. -/
def scanPatAux (p : MPat) : Nat → List Char → List Meas
  | 0, _ => []
  | _, [] => []
  | fuel + 1, l@(_ :: rest) =>
    match p.matchAt l with
    | some (v, n) =>
      ⟨p.mtype, v, p.unit, ⟨l.take (max n 1)⟩⟩ :: scanPatAux p fuel (l.drop (max n 1))
    | none => scanPatAux p fuel rest

/-- `re.finditer` of one pattern over the whole text. -/
def scanPat (p : MPat) (l : List Char) : List Meas := scanPatAux p l.length l

/-- `LabNoteParser._extract_measurements`: every pattern is scanned over the
whole text independently, results concatenated in pattern order. -/
def extract_measurements (text : String) : List Meas :=
  measurement_patterns.flatMap (fun p => scanPat p text.data)

/-! ## Field extraction (`LabNoteParser.parse_text_to_json` field patterns)

The four metadata fields are extracted by `re.search` with
`re.IGNORECASE | re.MULTILINE` over ordered pattern lists.  Each pattern is
embedded as a pair of nondeterministic matchers (the part before the capture
group and the capture group with its trailing lookahead); a matcher maps a
position to the list of possible remainders in regex priority order
(greedy alternatives longest-first, lazy ones shortest-first, alternation in
written order), so the first overall success reproduces Python backtracking. -/

/-- A nondeterministic matcher: possible remainders in priority order. -/
def P : Type := List Char → List (List Char)

/-- Sequencing. -/
def pseq (a b : P) : P := fun l => (a l).flatMap b

/-- Case-insensitive literal. -/
def plit (s : String) : P := fun l =>
  match litCIAux s.data l with
  | some n => [l.drop n]
  | none => []

/-- Single character from a class. -/
def pchar (f : Char → Bool) : P := fun l =>
  match l with
  | c :: t => if f c then [t] else []
  | [] => []

/-- Greedy option `X?`: with-X outcomes first. -/
def popt (a : P) : P := fun l => a l ++ [l]

/-- Ordered alternation. -/
def palt (a b : P) : P := fun l => a l ++ b l

/-- Regex `\s*`, greedy: longest whitespace run first. -/
def pWsStar : P := fun l =>
  let k := (l.takeWhile isPySpace).length
  (List.range (k + 1)).map (fun i => l.drop (k - i))

/-- Greedy `+` over a character class: longest run first, at least one. -/
def pclassG (f : Char → Bool) : P := fun l =>
  let k := (l.takeWhile f).length
  (List.range k).map (fun i => l.drop (k - i))

/-- Lazy `+?` over a character class: shortest first, at least one. -/
def pclassLazy1 (f : Char → Bool) : P := fun l =>
  let k := (l.takeWhile f).length
  (List.range k).map (fun i => l.drop (i + 1))

/-- Lazy `*?` over a character class: shortest first. -/
def pclassLazy0 (f : Char → Bool) : P := fun l =>
  let k := (l.takeWhile f).length
  (List.range (k + 1)).map (fun i => l.drop i)

/-- Exactly `n` characters of a class (`\d{n}`). -/
def pexact (f : Char → Bool) (n : Nat) : P := fun l =>
  if n ≤ (l.takeWhile f).length then [l.drop n] else []

/-- Between `lo` and `hi` characters of a class, greedy (`\d{lo,hi}`). -/
def pminmax (f : Char → Bool) (lo hi : Nat) : P := fun l =>
  let k := min (l.takeWhile f).length hi
  if k < lo then [] else (List.range (k - lo + 1)).map (fun i => l.drop (k - i))

/-- Zero-width assertion (lookahead). -/
def plook (g : List Char → Bool) : P := fun l => if g l then [l] else []

/-- The empty pattern. -/
def pnil : P := fun l => [l]

/-- Try the pattern at the current position: the pattern is split as the part
`pre` before the capture group and the capture group (with its trailing
lookahead) `post`; on success returns the text consumed by `post` net of
zero-width assertions, i.e. `match.group(1)`. -/
def matchPat (pre post : P) (l : List Char) : Option String :=
  (pre l).findSome? (fun r =>
    match post r with
    | r' :: _ => some ⟨r.take (r.length - r'.length)⟩
    | [] => none)

/-- `re.search`: leftmost match wins. -/
def searchPat (pre post : P) : List Char → Option String
  | [] => matchPat pre post []
  | l@(_ :: t) =>
    match matchPat pre post l with
    | some s => some s
    | none => searchPat pre post t

/-- First pattern in the list with a match anywhere in the text
(the `for pattern in pattern_list: ... break` loop). -/
def firstFieldMatch (pats : List (P × P)) (l : List Char) : Option String :=
  pats.findSome? (fun pp => searchPat pp.1 pp.2 l)

/-- `[A-Z0-9-]` under `re.IGNORECASE`. -/
def isIdChar (c : Char) : Bool :=
  ('A' ≤ c && c ≤ 'Z') || ('a' ≤ c && c ≤ 'z') || c.isDigit || c == '-'

/-- Regex `\w` (ASCII model, covering the inputs considered here). -/
def isWordChar (c : Char) : Bool :=
  ('A' ≤ c && c ≤ 'Z') || ('a' ≤ c && c ≤ 'z') || c.isDigit || c == '_'

/-- The class `[\w\s.]` of the researcher patterns. -/
def isNameChar (c : Char) : Bool := isWordChar c || isPySpace c || c == '.'

/-- Optional colon `:?`, greedy. -/
def pColon : P := popt (pchar (· == ':'))

/-- Lookahead `(?=\n|$)` (with `re.MULTILINE`, `$` also matches before a
newline, which `\n` already covers, so the flag changes nothing here). -/
def pLookEol : P := plook (fun l =>
  match l with
  | [] => true
  | c :: _ => c == '\n')

/-- Pattern `Experiment\s*(?:ID|#)?:?\s*` (before the capture group). -/
def expIdPre1 : P :=
  pseq (plit "experiment")
    (pseq pWsStar (pseq (popt (palt (plit "id") (plit "#"))) (pseq pColon pWsStar)))

/-- Pattern `Exp\s*(?:ID|#)?:?\s*`. -/
def expIdPre2 : P :=
  pseq (plit "exp")
    (pseq pWsStar (pseq (popt (palt (plit "id") (plit "#"))) (pseq pColon pWsStar)))

/-- Pattern `ID:?\s*`. -/
def expIdPre3 : P := pseq (plit "id") (pseq pColon pWsStar)

/-- Capture group `([A-Z0-9-]+)`, greedy. -/
def expIdPost : P := pclassG isIdChar

/-- The ordered experiment-id pattern list. -/
def experiment_id_patterns : List (P × P) :=
  [(expIdPre1, expIdPost), (expIdPre2, expIdPost), (expIdPre3, expIdPost)]

/-- Pattern `Date:?\s*`. -/
def datePre : P := pseq (plit "date") (pseq pColon pWsStar)

/-- Capture group `(\d{4}-\d{2}-\d{2})`. -/
def datePost1 : P :=
  pseq (pexact Char.isDigit 4)
    (pseq (pchar (· == '-'))
      (pseq (pexact Char.isDigit 2) (pseq (pchar (· == '-')) (pexact Char.isDigit 2))))

/-- Capture group of the second and third date patterns: one or two digits,
a slash-or-dash separator, one or two digits, a separator, two to four
digits. -/
def datePost2 : P :=
  pseq (pminmax Char.isDigit 1 2)
    (pseq (pchar (fun c => c == '/' || c == '-'))
      (pseq (pminmax Char.isDigit 1 2)
        (pseq (pchar (fun c => c == '/' || c == '-')) (pminmax Char.isDigit 2 4))))

/-- The ordered date pattern list. -/
def date_patterns : List (P × P) :=
  [(datePre, datePost1), (datePre, datePost2), (pnil, datePost2)]

/-- Optional group `(?:Dr\.?\s*)?` inside the researcher capture. -/
def drOpt : P := popt (pseq (plit "dr") (pseq (popt (pchar (· == '.'))) pWsStar))

/-- Capture group `((?:Dr\.?\s*)?[\w\s.]+?)` with lookahead `(?=\n|$)`. -/
def resPost : P := pseq drOpt (pseq (pclassLazy1 isNameChar) pLookEol)

/-- The ordered researcher pattern list: `Researcher:?\s*`,
`(?:By|Author):?\s*`, `Name:?\s*` before the capture. -/
def researcher_patterns : List (P × P) :=
  [(pseq (plit "researcher") (pseq pColon pWsStar), resPost),
   (pseq (palt (plit "by") (plit "author")) (pseq pColon pWsStar), resPost),
   (pseq (plit "name") (pseq pColon pWsStar), resPost)]

/-- Capture group `(.*?)` with lookahead `(?=\n|$)` (`.` excludes newline). -/
def titlePost : P := pseq (pclassLazy0 (fun c => !(c == '\n'))) pLookEol

/-- The ordered title pattern list: `Title:?\s*`, `Experiment:?\s*`,
`Subject:?\s*` before the capture. -/
def title_patterns : List (P × P) :=
  [(pseq (plit "title") (pseq pColon pWsStar), titlePost),
   (pseq (plit "experiment") (pseq pColon pWsStar), titlePost),
   (pseq (plit "subject") (pseq pColon pWsStar), titlePost)]

/-! ## `parse_text_to_json` -/

/-- The wall-clock time at which an extraction runs (`datetime.now()`),
used only to synthesise a default experiment id. -/
structure PyTime where
  year : Nat
  month : Nat
  day : Nat
  hour : Nat
  minute : Nat
  second : Nat

/-- Zero-padded decimal rendering of a timestamp component. -/
def padNum (w n : Nat) : String :=
  let s := toString n
  ⟨List.replicate (w - s.length) '0'⟩ ++ s

/-- `datetime.now().strftime("%Y%m%d_%H%M%S")`. -/
def timestampStr (t : PyTime) : String :=
  padNum 4 t.year ++ padNum 2 t.month ++ padNum 2 t.day ++ "_" ++
    padNum 2 t.hour ++ padNum 2 t.minute ++ padNum 2 t.second

/-- The structured record produced by `parse_text_to_json`. -/
structure LabRecord where
  experiment_id : String
  date : String
  researcher : String
  title : String
  methods : String
  results : String
  observations : String
  raw_text : String
  measurements : List Meas
  sections : List (String × String)
deriving DecidableEq, Repr

/-- `sections.get(k, "")`. -/
def getSec (m : List (String × String)) (k : String) : String :=
  (lookupSec m k).getD ""

/-- `LabNoteParser.parse_text_to_json`: field extraction by ordered patterns
(first match wins, captured group stripped), section extraction, measurement
extraction, raw text stored as `text.strip()`, and a default experiment id
`EXP_<yyyymmdd_HHMMSS>` synthesised from the current time when the field is
still empty after pattern matching. -/
def parse_text_to_json (text : String) (now : PyTime) : LabRecord :=
  let expidRaw := ((firstFieldMatch experiment_id_patterns text.data).map pystrip).getD ""
  let sections := extract_sections text
  { experiment_id := if expidRaw = "" then "EXP_" ++ timestampStr now else expidRaw
    date := ((firstFieldMatch date_patterns text.data).map pystrip).getD ""
    researcher := ((firstFieldMatch researcher_patterns text.data).map pystrip).getD ""
    title := ((firstFieldMatch title_patterns text.data).map pystrip).getD ""
    methods := getSec sections "methods"
    results := getSec sections "results"
    observations := getSec sections "observations"
    raw_text := pystrip text
    measurements := extract_measurements text
    sections := sections }

/-! ## Record store (`store_in_database`, `get_experiment`, search, suggestions)

The three SQLite tables are lists of row structures; `created_at` is an
abstract timestamp (the `updated_at` column is never read by any embedded
operation and is omitted).  Storage faults (I/O errors, constraint
violations) are modelled by a fault oracle assigning an optional error to
each executed statement; `sqlite3` commits only at the end of the `try`
block, so a fault anywhere leaves the database unchanged. -/

/-- One row of the `experiments` table. -/
structure ExpRow where
  experiment_id : String
  date : String
  researcher : String
  title : String
  methods : String
  results : String
  observations : String
  raw_text : String
  encryption_metadata : String
  created_at : Nat
deriving DecidableEq, Repr

/-- One row of the append-only `experiment_sections` table. -/
structure SectionRow where
  experiment_id : String
  section_type : String
  section_content : String
deriving DecidableEq, Repr

/-- One row of the append-only `measurements` table. -/
structure MeasRow where
  experiment_id : String
  measurement_type : String
  value : String
  unit : String
deriving DecidableEq, Repr

/-- The database state. -/
structure DB where
  experiments : List ExpRow
  experiment_sections : List SectionRow
  measurements : List MeasRow
deriving DecidableEq, Repr

/-- `json.dumps({'encrypted': False})`, the metadata stored when encryption
is disabled. -/
def encMetaDisabled : String := "\x7b\"encrypted\": false\x7d"

/-- Modelled from the spec: `security_utils.encrypt_lab_record` belongs to
this repository but is not under src/; per the spec, with encryption
disabled the encryption/decryption pass is a no-op, so the record comes back
without an `_encrypted` flag and `store_in_database` takes its plaintext
branch. -/
def encrypt_lab_record_disabled (d : LabRecord) : LabRecord := d

/-- `str(float)` of a parsed decimal value, as stored in the `value` column
of the measurements table (Python's shortest-repr float printing coincides
with the decimal numeral, trailing zeros dropped, for the small decimals
arising here). -/
def decPyStr (d : Dec) : String :=
  if d.fdigits = 0 then toString d.mant ++ ".0"
  else
    let ip := d.mant / 10 ^ d.fdigits
    let fp := d.mant % 10 ^ d.fdigits
    let fs := ((padNum d.fdigits fp).data.reverse.dropWhile (· == '0')).reverse
    toString ip ++ "." ++ (if fs = [] then "0" else (⟨fs⟩ : String))

/-- A fault oracle: the error raised by the n-th executed statement of one
`store_in_database` call, if any. -/
def FaultSpec : Type := Nat → Option String

/-- The fault-free oracle. -/
def noFault : FaultSpec := fun _ => none

/-- The rows appended to `experiment_sections`: one per section whose
content has non-blank `content.strip()`, in dict order. -/
def secRowsOf (data : LabRecord) : List SectionRow :=
  (data.sections.filter (fun p => pystrip p.2 ≠ "")).map
    (fun p => ⟨data.experiment_id, p.1, p.2⟩)

/-- The rows appended to `measurements`: one per extracted measurement. -/
def measRowsOf (data : LabRecord) : List MeasRow :=
  data.measurements.map (fun m => ⟨data.experiment_id, m.mtype, decPyStr m.value, m.unit⟩)

/-- Number of database statements executed by one `store_in_database` call:
connect, the main INSERT OR REPLACE, one INSERT per non-empty section, one
INSERT per measurement, and the final commit. -/
def stmtCount (data : LabRecord) : Nat :=
  2 + (secRowsOf data).length + (measRowsOf data).length + 1

/-- First fault among the first `n` statements, if any. -/
def firstFault (fs : FaultSpec) (n : Nat) : Option String :=
  (List.range n).findSome? fs

/-- The `try` block of `store_in_database` (encryption disabled, plaintext
branch): INSERT OR REPLACE the main row keyed by `experiment_id` (the
conflicting row is deleted, the fresh row gets fresh timestamps), append
section rows for every non-empty section, append one row per measurement,
commit.  Any faulting statement raises; nothing is committed in that case. -/
def storeBody (fs : FaultSpec) (db : DB) (data : LabRecord) (now : Nat) :
    Except String DB :=
  match firstFault fs (stmtCount data) with
  | some e => .error e
  | none => .ok
    { experiments :=
        (db.experiments.filter (fun r => r.experiment_id ≠ data.experiment_id)) ++
          [⟨data.experiment_id, data.date, data.researcher, data.title, data.methods,
            data.results, data.observations, data.raw_text, encMetaDisabled, now⟩]
      experiment_sections := db.experiment_sections ++ secRowsOf data
      measurements := db.measurements ++ measRowsOf data }

/-- `LabNoteParser.store_in_database`: returns `True` on success; any
exception from the body is caught, logged, and turned into `False`, leaving
the database as it was. -/
def store_in_database (fs : FaultSpec) (db : DB) (data : LabRecord) (now : Nat) :
    Bool × DB :=
  match storeBody fs db data now with
  | .ok db2 => (true, db2)
  | .error _ => (false, db)

/-- `LabNoteParser.get_experiment`: exact-key lookup; the stored metadata
marks the row as not encrypted, so the decrypt branch is skipped (and the
spec-modelled decryption pass is a no-op anyway); `encryption_metadata` is
popped from the returned record. -/
def get_experiment (db : DB) (experiment_id : String) : Option ExpRow :=
  match db.experiments.find? (fun r => r.experiment_id == experiment_id) with
  | some r => some { r with encryption_metadata := "" }
  | none => none

/-- A search result row: the selected columns plus the computed
`relevance_score`. -/
structure Scored where
  row : ExpRow
  relevance_score : Nat
deriving DecidableEq, Repr

/-- The WHERE clause of `search_experiments`: the query LIKE-matches at
least one of the seven searched fields. -/
def matchesQuery (q : String) (r : ExpRow) : Bool :=
  likeContains q r.experiment_id || likeContains q r.title ||
    likeContains q r.researcher || likeContains q r.methods ||
    likeContains q r.results || likeContains q r.observations ||
    likeContains q r.raw_text

/-- The relevance score of `search_experiments`: the sum of the CASE
weights of the fields containing the query. -/
def relevance (q : String) (r : ExpRow) : Nat :=
  (if likeContains q r.experiment_id then 10 else 0) +
    (if likeContains q r.title then 8 else 0) +
    (if likeContains q r.researcher then 6 else 0) +
    (if likeContains q r.methods then 4 else 0) +
    (if likeContains q r.results then 4 else 0) +
    (if likeContains q r.observations then 3 else 0) +
    (if likeContains q r.raw_text then 1 else 0)

/-- `ORDER BY relevance_score DESC, created_at DESC` as a relation. -/
def rankGE (a b : Scored) : Prop :=
  b.relevance_score < a.relevance_score ∨
    (a.relevance_score = b.relevance_score ∧ b.row.created_at ≤ a.row.created_at)

instance : DecidableRel rankGE := fun a b => by
  unfold rankGE
  infer_instance

instance : IsTotal Scored rankGE := by
  constructor
  intro a b
  unfold rankGE
  omega

instance : IsTrans Scored rankGE := by
  constructor
  intro a b c
  unfold rankGE
  omega

/-- `LabNoteParser.search_experiments`: filter by the WHERE clause, compute
the relevance score, order by score then creation time (both descending),
cap at `limit`. -/
def search_experiments (db : DB) (q : String) (lim : Nat) : List Scored :=
  (List.insertionSort rankGE
    ((db.experiments.filter (matchesQuery q)).map (fun r => ⟨r, relevance q r⟩))).take lim

/-- The four suggestion categories. -/
structure Suggestions where
  experiment_ids : List String
  researchers : List String
  titles : List String
  measurement_types : List String
deriving DecidableEq, Repr

/-- `SELECT DISTINCT v ... ORDER BY v`: distinct values, sorted ascending. -/
def distinctSorted (vals : List String) : List String :=
  List.insertionSort (· ≤ ·) vals.dedup

/-- `LabNoteParser.get_search_suggestions`: four independent
`SELECT DISTINCT col WHERE col LIKE %q% ORDER BY col LIMIT lim` lookups
(researchers and titles additionally exclude empty values). -/
def get_search_suggestions (db : DB) (pquery : String) (lim : Nat) : Suggestions :=
  { experiment_ids :=
      (distinctSorted ((db.experiments.map (·.experiment_id)).filter
        (fun v => likeContains pquery v))).take lim
    researchers :=
      (distinctSorted ((db.experiments.map (·.researcher)).filter
        (fun v => likeContains pquery v && !(v == "")))).take lim
    titles :=
      (distinctSorted ((db.experiments.map (·.title)).filter
        (fun v => likeContains pquery v && !(v == "")))).take lim
    measurement_types :=
      (distinctSorted ((db.measurements.map (·.measurement_type)).filter
        (fun v => likeContains pquery v))).take lim }

/-- The `/search_suggestions` endpoint of src/app.py: the query parameter is
stripped, queries whose stripped form is shorter than 2 characters get four
empty lists, otherwise the parser lookup runs on the stripped query. -/
def search_suggestions_endpoint (db : DB) (q : String) (lim : Nat) : Suggestions :=
  let pq := pystrip q
  if pq.length < 2 then ⟨[], [], [], []⟩
  else get_search_suggestions db pq lim

/-! ## Supporting lemmas: section-map keys -/

theorem setSection_keys (m : List (String × String)) (k v : String)
    (h : m.any (fun p => p.1 == k) = true) :
    (setSection m k v).map Prod.fst = m.map Prod.fst := by
  unfold setSection
  rw [if_pos h, List.map_map]
  refine List.map_congr_left ?_
  intro p _
  simp only [Function.comp_apply]
  split
  · next hcond => exact (eq_of_beq hcond).symm
  · rfl

theorem anyKey (m : List (String × String)) (s : String)
    (h : s ∈ m.map Prod.fst) : m.any (fun p => p.1 == s) = true := by
  rcases List.mem_map.mp h with ⟨p, hp, rfl⟩
  exact List.any_eq_true.mpr ⟨p, hp, by simp⟩

theorem flush_keys (st : PState)
    (hk : st.secs.map Prod.fst = sectionNames)
    (hc : ∀ s, st.cur = some s → s ∈ sectionNames) :
    (flushState st).map Prod.fst = sectionNames := by
  obtain ⟨cur, buf, secs⟩ := st
  cases cur with
  | none => exact hk
  | some s =>
    simp only [flushState]
    split
    · exact (setSection_keys _ _ _ (anyKey _ _ (hk ▸ hc s rfl))).trans hk
    · exact hk

theorem headerOfAux_mem (table : List (String × List K)) (l : List Char)
    (s : String) (n : Nat) (h : headerOfAux table l = some (s, n)) :
    s ∈ table.map Prod.fst := by
  induction table with
  | nil => simp [headerOfAux] at h
  | cons e rest ih =>
    rw [headerOfAux] at h
    split at h
    · simp only [Option.some.injEq, Prod.mk.injEq] at h
      simp [← h.1]
    · exact List.mem_cons_of_mem _ (ih h)

theorem headerOf_mem (line : String) (s : String) (n : Nat)
    (h : headerOf line = some (s, n)) : s ∈ sectionNames :=
  headerOfAux_mem _ _ _ _ h

theorem stepLine_blank (st : PState) (l : String) (h : pystrip l = "") :
    stepLine st l = st := by
  simp [stepLine, h]

theorem stepLine_header (st : PState) (l : String) (s : String) (n : Nat)
    (h1 : headerOf (pystrip l) = some (s, n)) :
    stepLine st l =
      ⟨some s,
        if pystrip ⟨(pystrip l).data.drop n⟩ ≠ "" ∧ pystrip ⟨(pystrip l).data.drop n⟩ ≠ ":"
          then [pystrip ⟨(pystrip l).data.drop n⟩] else [],
        flushState st⟩ := by
  have hne : pystrip l ≠ "" := by
    intro he
    rw [he] at h1
    have h0 : headerOf "" = none := by decide
    rw [h0] at h1
    cases h1
  simp [stepLine, hne, h1]

theorem stepLine_plain (st : PState) (l : String) (h0 : pystrip l ≠ "")
    (h1 : headerOf (pystrip l) = none) :
    stepLine st l =
      match st.cur with
      | some _ => ⟨st.cur, st.buf ++ [pystrip l], st.secs⟩
      | none => st := by
  simp [stepLine, h0, h1]

theorem stepLine_keys (st : PState) (l : String)
    (hk : st.secs.map Prod.fst = sectionNames)
    (hc : ∀ s, st.cur = some s → s ∈ sectionNames) :
    (stepLine st l).secs.map Prod.fst = sectionNames ∧
      ∀ s, (stepLine st l).cur = some s → s ∈ sectionNames := by
  by_cases h0 : pystrip l = ""
  · rw [stepLine_blank st l h0]
    exact ⟨hk, hc⟩
  · cases h1 : headerOf (pystrip l) with
    | some p =>
      obtain ⟨s, n⟩ := p
      rw [stepLine_header st l s n h1]
      refine ⟨flush_keys st hk hc, ?_⟩
      intro s' hs'
      simp only [Option.some.injEq] at hs'
      exact hs' ▸ headerOf_mem _ _ _ h1
    | none =>
      rw [stepLine_plain st l h0 h1]
      cases hcur : st.cur with
      | some s => exact ⟨hk, fun s' hs' => hc s' (hcur ▸ hs')⟩
      | none => exact ⟨hk, hc⟩

theorem runLines_keys (ls : List String) (st : PState)
    (hk : st.secs.map Prod.fst = sectionNames)
    (hc : ∀ s, st.cur = some s → s ∈ sectionNames) :
    (runLines st ls).secs.map Prod.fst = sectionNames ∧
      ∀ s, (runLines st ls).cur = some s → s ∈ sectionNames := by
  induction ls generalizing st with
  | nil => exact ⟨hk, hc⟩
  | cons l ls ih =>
    have hstep := stepLine_keys st l hk hc
    exact ih (stepLine st l) hstep.1 hstep.2

theorem initSections_keys : initSections.map Prod.fst = sectionNames := by
  show List.map Prod.fst (sectionNames.map fun n => (n, "")) = sectionNames
  rw [List.map_map]
  exact (List.map_congr_left fun a _ => rfl).trans (List.map_id sectionNames)

theorem extract_sections_keys (text : String) :
    (extract_sections text).map Prod.fst = sectionNames := by
  unfold extract_sections
  have h := runLines_keys (splitNl text) ⟨none, [], initSections⟩ initSections_keys
    (by intro s hs; simp at hs)
  exact flush_keys _ h.1 h.2

/-- C10: for every input string (and extraction time), the sections map of
the extracted record has exactly the seven keys methods, results,
observations, materials, procedure, discussion, conclusion, in this order,
each mapped to a string — never fewer keys and never any other key. -/
theorem sections_map_has_exactly_seven_keys (text : String) (now : PyTime) :
    ((parse_text_to_json text now).sections).map Prod.fst =
      ["methods", "results", "observations", "materials", "procedure",
        "discussion", "conclusion"] := by
  have h : (parse_text_to_json text now).sections = extract_sections text := rfl
  rw [h, extract_sections_keys]
  rfl

/-- C6 counterexample: the extracted `raw_text` of the input `" a"` is not
the input itself — the stored value is stripped. -/
theorem raw_text_not_verbatim :
    (parse_text_to_json " a" ⟨2026, 1, 1, 0, 0, 0⟩).raw_text ≠ " a" := by
  decide

/-- C6 (amended): for every input text, the extracted record's `raw_text`
equals the input with leading and trailing whitespace stripped
(`text.strip()`); in particular it is the input verbatim exactly when the
input has no leading or trailing whitespace. -/
theorem raw_text_is_stripped_input (text : String) (now : PyTime) :
    (parse_text_to_json text now).raw_text = pystrip text := rfl

/-- C2: evaluating `_extract_measurements` on the claimed input
`"Heated to 50°C for 30min at pH 7.4"` (with a real degree sign U+00B0).
The code produces three measurements — pH 7.4, time 30 min, and a spurious
concentration 30 M matched inside `"30min"` — and no temperature
measurement at all, because the temperature pattern's degree-sign literal
is the mangled character U+C9F8, not `°`. -/
theorem measurements_on_claimed_input :
    extract_measurements "Heated to 50°C for 30min at pH 7.4" =
        [⟨"pH", ⟨74, 1⟩, "", "pH 7.4"⟩, ⟨"time", ⟨30, 0⟩, "min", "30min"⟩,
          ⟨"concentration", ⟨30, 0⟩, "M", "30m"⟩] ∧
      Dec.toRat ⟨74, 1⟩ = 7.4 ∧ Dec.toRat ⟨30, 0⟩ = 30 ∧
      ∀ m ∈ extract_measurements "Heated to 50°C for 30min at pH 7.4",
        m.mtype ≠ "temperature" := by
  refine ⟨by decide, by norm_num [Dec.toRat], by norm_num [Dec.toRat], by decide⟩

/-! ## C4: empty input and synthesized experiment id -/

theorem exp_ne_empty (s : String) : "EXP_" ++ s ≠ "" := by
  intro h
  have hl := congrArg String.length h
  rw [String.length_append] at hl
  have h4 : ("EXP_" : String).length = 4 := rfl
  have h0 : ("" : String).length = 0 := rfl
  omega

/-- C4 counterexample: the sections map of `extract("")` is not empty — it
always carries the seven fixed keys. -/
theorem empty_extract_sections_not_empty :
    (parse_text_to_json "" ⟨2026, 1, 1, 0, 0, 0⟩).sections ≠ [] := by
  decide

/-- C4 (amended): `extract("")` returns a record whose date, researcher,
title, and every section body (top-level and in the section map) are empty,
whose section map consists of the seven fixed keys each mapped to the empty
string (not an empty map), and whose `experiment_id` is the non-empty
synthesized string `EXP_<yyyymmdd_HHMMSS>` built from the extraction's
current time; in general, whenever no experiment-id pattern matches the
input, the `experiment_id` is synthesized in this form and is never empty. -/
theorem empty_input_record_and_id_synthesis :
    (∀ now : PyTime,
      (parse_text_to_json "" now).date = "" ∧
      (parse_text_to_json "" now).researcher = "" ∧
      (parse_text_to_json "" now).title = "" ∧
      (parse_text_to_json "" now).methods = "" ∧
      (parse_text_to_json "" now).results = "" ∧
      (parse_text_to_json "" now).observations = "" ∧
      (parse_text_to_json "" now).raw_text = "" ∧
      (parse_text_to_json "" now).measurements = [] ∧
      (parse_text_to_json "" now).sections =
        [("methods", ""), ("results", ""), ("observations", ""), ("materials", ""),
         ("procedure", ""), ("discussion", ""), ("conclusion", "")] ∧
      (parse_text_to_json "" now).experiment_id = "EXP_" ++ timestampStr now ∧
      (parse_text_to_json "" now).experiment_id ≠ "") ∧
    (∀ (text : String) (now : PyTime),
      firstFieldMatch experiment_id_patterns text.data = none →
        (parse_text_to_json text now).experiment_id = "EXP_" ++ timestampStr now ∧
        (parse_text_to_json text now).experiment_id ≠ "") := by
  constructor
  · intro now
    refine ⟨rfl, rfl, rfl, rfl, rfl, rfl, rfl, rfl, rfl, rfl, ?_⟩
    show "EXP_" ++ timestampStr now ≠ ""
    exact exp_ne_empty _
  · intro text now hn
    have hid : (parse_text_to_json text now).experiment_id =
        (if (((firstFieldMatch experiment_id_patterns text.data).map pystrip).getD "") = ""
          then "EXP_" ++ timestampStr now
          else (((firstFieldMatch experiment_id_patterns text.data).map pystrip).getD "")) := rfl
    rw [hid, hn]
    simp only [Option.map_none', Option.getD_none, if_pos rfl]
    exact ⟨rfl, exp_ne_empty _⟩

theorem id_synthesis_witness :
    firstFieldMatch experiment_id_patterns ("hello world" : String).data = none ∧
      ((parse_text_to_json "hello world" ⟨2026, 1, 1, 0, 0, 0⟩).experiment_id =
          "EXP_" ++ timestampStr ⟨2026, 1, 1, 0, 0, 0⟩ ∧
        (parse_text_to_json "hello world" ⟨2026, 1, 1, 0, 0, 0⟩).experiment_id ≠ "") :=
  ⟨by decide,
    empty_input_record_and_id_synthesis.2 "hello world" ⟨2026, 1, 1, 0, 0, 0⟩ (by decide)⟩

/-! ## Store lemmas (C5, C7, C8) -/

theorem findSome?_const_none {α β : Type} (l : List α) :
    l.findSome? (fun _ => (none : Option β)) = none := by
  induction l with
  | nil => rfl
  | cons a t ih => simp [List.findSome?, ih]

theorem firstFault_noFault (n : Nat) : firstFault noFault n = none := by
  unfold firstFault noFault
  exact findSome?_const_none _

theorem store_noFault_eq (db : DB) (rec : LabRecord) (now : Nat) :
    store_in_database noFault db rec now =
      (true,
        ⟨(db.experiments.filter (fun r => r.experiment_id ≠ rec.experiment_id)) ++
            [⟨rec.experiment_id, rec.date, rec.researcher, rec.title, rec.methods,
              rec.results, rec.observations, rec.raw_text, encMetaDisabled, now⟩],
          db.experiment_sections ++ secRowsOf rec,
          db.measurements ++ measRowsOf rec⟩) := by
  unfold store_in_database storeBody
  rw [firstFault_noFault]

/-- Apply `store_in_database` (fault-free) `n` times with the same record. -/
def iterStore (rec : LabRecord) (now : Nat) : Nat → DB → DB
  | 0, db => db
  | n + 1, db => iterStore rec now n (store_in_database noFault db rec now).2

/-- Number of `experiments` rows carrying a given experiment id. -/
def countExpRows (db : DB) (id : String) : Nat :=
  db.experiments.countP (fun r => r.experiment_id == id)

/-- Number of `experiment_sections` rows carrying a given experiment id. -/
def countSecRows (db : DB) (id : String) : Nat :=
  db.experiment_sections.countP (fun r => r.experiment_id == id)

/-- Number of `measurements` rows carrying a given experiment id. -/
def countMeasRows (db : DB) (id : String) : Nat :=
  db.measurements.countP (fun r => r.experiment_id == id)

theorem store_step (db : DB) (rec : LabRecord) (now : Nat) :
    countExpRows (store_in_database noFault db rec now).2 rec.experiment_id = 1 ∧
      countSecRows (store_in_database noFault db rec now).2 rec.experiment_id =
        countSecRows db rec.experiment_id + (secRowsOf rec).length ∧
      countMeasRows (store_in_database noFault db rec now).2 rec.experiment_id =
        countMeasRows db rec.experiment_id + (measRowsOf rec).length ∧
      (store_in_database noFault db rec now).2.experiment_sections =
        db.experiment_sections ++ secRowsOf rec ∧
      (store_in_database noFault db rec now).2.measurements =
        db.measurements ++ measRowsOf rec := by
  rw [store_noFault_eq]
  refine ⟨?_, ?_, ?_, rfl, rfl⟩
  · show List.countP _ (_ ++ _) = 1
    rw [List.countP_append]
    have h1 : List.countP (fun r => r.experiment_id == rec.experiment_id)
        (db.experiments.filter (fun r => r.experiment_id ≠ rec.experiment_id)) = 0 := by
      rw [List.countP_eq_zero]
      intro a ha
      have := List.of_mem_filter ha
      simpa using this
    rw [h1]
    simp
  · show List.countP _ (_ ++ _) = _
    rw [List.countP_append]
    congr 1
    rw [List.countP_eq_length]
    intro a ha
    rcases List.mem_map.mp ha with ⟨p, _, rfl⟩
    simp
  · show List.countP _ (_ ++ _) = _
    rw [List.countP_append]
    congr 1
    rw [List.countP_eq_length]
    intro a ha
    rcases List.mem_map.mp ha with ⟨m, _, rfl⟩
    simp

theorem iterStore_tables (rec : LabRecord) (now : Nat) (n : Nat) (db : DB) :
    countSecRows (iterStore rec now n db) rec.experiment_id =
        countSecRows db rec.experiment_id + n * (secRowsOf rec).length ∧
      countMeasRows (iterStore rec now n db) rec.experiment_id =
        countMeasRows db rec.experiment_id + n * (measRowsOf rec).length ∧
      (∃ t, (iterStore rec now n db).experiment_sections = db.experiment_sections ++ t) ∧
      (∃ t, (iterStore rec now n db).measurements = db.measurements ++ t) := by
  induction n generalizing db with
  | zero => exact ⟨by simp [iterStore], by simp [iterStore], ⟨[], by simp [iterStore]⟩,
      ⟨[], by simp [iterStore]⟩⟩
  | succ m ih =>
    have hstep := store_step db rec now
    have hrec := ih (store_in_database noFault db rec now).2
    refine ⟨?_, ?_, ?_, ?_⟩
    · rw [show iterStore rec now (m + 1) db
          = iterStore rec now m (store_in_database noFault db rec now).2 from rfl,
        hrec.1, hstep.2.1]
      ring
    · rw [show iterStore rec now (m + 1) db
          = iterStore rec now m (store_in_database noFault db rec now).2 from rfl,
        hrec.2.1, hstep.2.2.1]
      ring
    · rcases hrec.2.2.1 with ⟨t, ht⟩
      exact ⟨secRowsOf rec ++ t, by
        rw [show iterStore rec now (m + 1) db
            = iterStore rec now m (store_in_database noFault db rec now).2 from rfl,
          ht, hstep.2.2.2.1, List.append_assoc]⟩
    · rcases hrec.2.2.2 with ⟨t, ht⟩
      exact ⟨measRowsOf rec ++ t, by
        rw [show iterStore rec now (m + 1) db
            = iterStore rec now m (store_in_database noFault db rec now).2 from rfl,
          ht, hstep.2.2.2.2, List.append_assoc]⟩

theorem iterStore_exp (rec : LabRecord) (now : Nat) (n : Nat) (db : DB) (hn : 0 < n) :
    countExpRows (iterStore rec now n db) rec.experiment_id = 1 := by
  induction n generalizing db with
  | zero => omega
  | succ m ih =>
    cases m with
    | zero => exact (store_step db rec now).1
    | succ k => exact ih (store_in_database noFault db rec now).2 (Nat.succ_pos k)

/-- C5: upserting the same record `n ≥ 1` times leaves exactly one
`experiments` row for its id (replace-on-write), while each upsert appends
one `experiment_sections` row per non-empty section and one `measurements`
row per extracted measurement, and prior sub-rows are never deleted (the
old tables are a prefix of the new ones). -/
theorem repeated_upsert_accumulates (db : DB) (rec : LabRecord) (now : Nat)
    (n : Nat) (hn : 0 < n) :
    countExpRows (iterStore rec now n db) rec.experiment_id = 1 ∧
      countSecRows (iterStore rec now n db) rec.experiment_id =
        countSecRows db rec.experiment_id + n * (secRowsOf rec).length ∧
      countMeasRows (iterStore rec now n db) rec.experiment_id =
        countMeasRows db rec.experiment_id + n * (measRowsOf rec).length ∧
      (∃ t, (iterStore rec now n db).experiment_sections = db.experiment_sections ++ t) ∧
      (∃ t, (iterStore rec now n db).measurements = db.measurements ++ t) :=
  ⟨iterStore_exp rec now n db hn, iterStore_tables rec now n db⟩

/-- Record used by the C5 witness. -/
def c5rec : LabRecord :=
  ⟨"E1", "2025-01-01", "R", "T", "mm", "", "", "raw",
    [⟨"pH", ⟨74, 1⟩, "", "pH 7.4"⟩],
    [("methods", "mm"), ("results", "")]⟩

theorem repeated_upsert_witness :
    0 < 2 ∧
      (countExpRows (iterStore c5rec 7 2 ⟨[], [], []⟩) c5rec.experiment_id = 1 ∧
        countSecRows (iterStore c5rec 7 2 ⟨[], [], []⟩) c5rec.experiment_id =
          countSecRows ⟨[], [], []⟩ c5rec.experiment_id + 2 * (secRowsOf c5rec).length ∧
        countMeasRows (iterStore c5rec 7 2 ⟨[], [], []⟩) c5rec.experiment_id =
          countMeasRows ⟨[], [], []⟩ c5rec.experiment_id + 2 * (measRowsOf c5rec).length ∧
        (∃ t, (iterStore c5rec 7 2 ⟨[], [], []⟩).experiment_sections =
          DB.experiment_sections ⟨[], [], []⟩ ++ t) ∧
        (∃ t, (iterStore c5rec 7 2 ⟨[], [], []⟩).measurements =
          DB.measurements ⟨[], [], []⟩ ++ t)) :=
  ⟨by decide, repeated_upsert_accumulates ⟨[], [], []⟩ c5rec 7 2 (by decide)⟩

/-! ## C7: round trip through the store -/

theorem find?_append_none {α : Type} (p : α → Bool) (l₁ l₂ : List α)
    (h : l₁.find? p = none) : (l₁ ++ l₂).find? p = l₂.find? p := by
  induction l₁ with
  | nil => rfl
  | cons a tl ih =>
    cases hpa : p a with
    | true => simp [List.find?, hpa] at h
    | false =>
      rw [List.find?] at h
      rw [hpa] at h
      simp only [List.cons_append, List.find?, hpa]
      exact ih h

theorem store_get (db : DB) (rec : LabRecord) (t : Nat) :
    get_experiment (store_in_database noFault db rec t).2 rec.experiment_id =
      some ⟨rec.experiment_id, rec.date, rec.researcher, rec.title, rec.methods,
        rec.results, rec.observations, rec.raw_text, "", t⟩ := by
  rw [store_noFault_eq]
  have hnone : (db.experiments.filter
      (fun r => r.experiment_id ≠ rec.experiment_id)).find?
        (fun r => r.experiment_id == rec.experiment_id) = none := by
    rw [List.find?_eq_none]
    intro x hx
    have := List.of_mem_filter hx
    simpa using this
  have hfind : ((db.experiments.filter (fun r => r.experiment_id ≠ rec.experiment_id)) ++
      [(⟨rec.experiment_id, rec.date, rec.researcher, rec.title, rec.methods,
        rec.results, rec.observations, rec.raw_text, encMetaDisabled, t⟩ : ExpRow)]).find?
        (fun r => r.experiment_id == rec.experiment_id) =
      some ⟨rec.experiment_id, rec.date, rec.researcher, rec.title, rec.methods,
        rec.results, rec.observations, rec.raw_text, encMetaDisabled, t⟩ := by
    rw [find?_append_none _ _ _ hnone]
    simp [List.find?]
  simp only [get_experiment, hfind]

/-- C7: for every input text (and any prior database state), upserting the
extracted record and then looking its `experiment_id` up returns a non-null
record whose top-level fields — experiment id, date, researcher, title,
methods, results, observations, raw text — equal those produced by the
extraction (the encryption pass being disabled, hence a no-op). -/
theorem upsert_then_get_round_trip (db : DB) (text : String) (now : PyTime) (t : Nat) :
    ∃ row,
      get_experiment (store_in_database noFault db (parse_text_to_json text now) t).2
          (parse_text_to_json text now).experiment_id = some row ∧
        row.experiment_id = (parse_text_to_json text now).experiment_id ∧
        row.date = (parse_text_to_json text now).date ∧
        row.researcher = (parse_text_to_json text now).researcher ∧
        row.title = (parse_text_to_json text now).title ∧
        row.methods = (parse_text_to_json text now).methods ∧
        row.results = (parse_text_to_json text now).results ∧
        row.observations = (parse_text_to_json text now).observations ∧
        row.raw_text = (parse_text_to_json text now).raw_text :=
  ⟨_, store_get db (parse_text_to_json text now) t,
    rfl, rfl, rfl, rfl, rfl, rfl, rfl, rfl⟩

/-! ## C8: upsert returns a boolean and never raises -/

/-- C8: `store_in_database` is a total boolean-returning operation: for every
record, database state and fault behaviour of the storage layer, either the
body succeeds and the call returns `True` with the new state, or the body
raises and the call catches the exception and returns `False` with the
database unchanged — no exception escapes to the caller; in the fault-free
case the result is `True`. -/
theorem upsert_returns_bool_never_raises (fs : FaultSpec) (db : DB)
    (rec : LabRecord) (now : Nat) :
    ((∃ db2, storeBody fs db rec now = .ok db2 ∧
        store_in_database fs db rec now = (true, db2)) ∨
      (∃ e, storeBody fs db rec now = .error e ∧
        store_in_database fs db rec now = (false, db))) ∧
      (store_in_database noFault db rec now).1 = true := by
  constructor
  · cases h : storeBody fs db rec now with
    | ok db2 =>
      left
      refine ⟨db2, rfl, ?_⟩
      unfold store_in_database
      rw [h]
    | error e =>
      right
      refine ⟨e, rfl, ?_⟩
      unfold store_in_database
      rw [h]
  · rw [store_noFault_eq]

/-! ## C9: suggestion lookups and the minimum-query-length guard -/

theorem pystrip_length_le (q : String) : (pystrip q).length ≤ q.length := by
  show (stripL q.data).length ≤ q.data.length
  unfold stripL
  calc (((q.data.dropWhile isPySpace).reverse.dropWhile isPySpace).reverse).length
      = ((q.data.dropWhile isPySpace).reverse.dropWhile isPySpace).length := by
        rw [List.length_reverse]
    _ ≤ (q.data.dropWhile isPySpace).reverse.length := (List.dropWhile_sublist _).length_le
    _ = (q.data.dropWhile isPySpace).length := by rw [List.length_reverse]
    _ ≤ q.data.length := (List.dropWhile_sublist _).length_le

theorem distinctSorted_mem {v : String} {l : List String}
    (h : v ∈ distinctSorted l) : v ∈ l := by
  unfold distinctSorted at h
  exact List.mem_dedup.mp ((List.mem_insertionSort _).mp h)

theorem distinctSorted_nodup (l : List String) : (distinctSorted l).Nodup := by
  unfold distinctSorted
  exact ((List.perm_insertionSort _ _).nodup_iff).mpr (List.nodup_dedup l)

/-- Database used by the C9 counterexample and witness. -/
def c9db : DB := ⟨[⟨"X1", "", "Dr a x", "tt", "", "", "", "", "", 0⟩], [], []⟩

/-- C9 counterexample, refuting the claim as stated on two counts.  First,
for the two-character query `"a "` the length-≥-2 branch fails: the
suggestion endpoint strips the query, sees a single character, and returns
four empty lists although the lookup for `"a "` is non-empty.  Second, the
lookups are not literal-substring lookups: the query `"dr A"` returns the
stored researcher `"Dr a x"` — in which it does not occur as a substring —
because SQL `LIKE` folds ASCII case. -/
theorem suggestions_length_two_counterexample :
    ("a " : String).length = 2 ∧
      (search_suggestions_endpoint c9db "a " 10).researchers = [] ∧
      (get_search_suggestions c9db "a " 10).researchers = ["Dr a x"] ∧
      (get_search_suggestions c9db "dr A" 10).researchers = ["Dr a x"] ∧
      litSubstr "dr A" "Dr a x" = false := by
  refine ⟨rfl, rfl, ?_, ?_, by decide⟩ <;> decide

/-- C9 (amended): the suggestion endpoint measures the query length after
stripping surrounding whitespace: every query of length < 2 (whose stripped
form is then also shorter than 2) yields four empty suggestion lists
regardless of stored data, and every query whose stripped form has length
≥ 2 is answered by the parser lookup on the stripped query; the parser
lookup itself gives, for each of the four categories independently, a
duplicate-free list of at most `limit` stored column values each of which
the query LIKE-matches — `LIKE '%query%'`, ASCII-case-insensitively, with
`%` and `_` in the query acting as wildcards — researchers and titles
excluding empty values. -/
theorem suggestions_guard_and_lookup (db : DB) (q : String) (lim : Nat) :
    (q.length < 2 → search_suggestions_endpoint db q lim = ⟨[], [], [], []⟩) ∧
      (2 ≤ (pystrip q).length →
        search_suggestions_endpoint db q lim = get_search_suggestions db (pystrip q) lim) ∧
      ((get_search_suggestions db q lim).experiment_ids.length ≤ lim ∧
        (get_search_suggestions db q lim).researchers.length ≤ lim ∧
        (get_search_suggestions db q lim).titles.length ≤ lim ∧
        (get_search_suggestions db q lim).measurement_types.length ≤ lim) ∧
      ((get_search_suggestions db q lim).experiment_ids.Nodup ∧
        (get_search_suggestions db q lim).researchers.Nodup ∧
        (get_search_suggestions db q lim).titles.Nodup ∧
        (get_search_suggestions db q lim).measurement_types.Nodup) ∧
      (∀ v ∈ (get_search_suggestions db q lim).experiment_ids,
        likeContains q v = true ∧ v ∈ db.experiments.map ExpRow.experiment_id) ∧
      (∀ v ∈ (get_search_suggestions db q lim).researchers,
        likeContains q v = true ∧ v ≠ "" ∧ v ∈ db.experiments.map ExpRow.researcher) ∧
      (∀ v ∈ (get_search_suggestions db q lim).titles,
        likeContains q v = true ∧ v ≠ "" ∧ v ∈ db.experiments.map ExpRow.title) ∧
      (∀ v ∈ (get_search_suggestions db q lim).measurement_types,
        likeContains q v = true ∧ v ∈ db.measurements.map MeasRow.measurement_type) := by
  refine ⟨?_, ?_, ?_, ?_, ?_, ?_, ?_, ?_⟩
  · intro hq
    have hs : (pystrip q).length < 2 := lt_of_le_of_lt (pystrip_length_le q) hq
    unfold search_suggestions_endpoint
    rw [if_pos hs]
  · intro hq
    unfold search_suggestions_endpoint
    rw [if_neg (by omega)]
  · exact ⟨List.length_take_le _ _, List.length_take_le _ _,
      List.length_take_le _ _, List.length_take_le _ _⟩
  · refine ⟨?_, ?_, ?_, ?_⟩ <;>
      exact List.Nodup.sublist (List.take_sublist _ _) (distinctSorted_nodup _)
  · intro v hv
    have hv2 := distinctSorted_mem (List.take_subset _ _ hv)
    have hv3 := List.mem_filter.mp hv2
    exact ⟨hv3.2, hv3.1⟩
  · intro v hv
    have hv2 := distinctSorted_mem (List.take_subset _ _ hv)
    have hv3 := List.mem_filter.mp hv2
    have hb := Bool.and_eq_true_iff.mp hv3.2
    refine ⟨hb.1, ?_, hv3.1⟩
    have := hb.2
    simpa using this
  · intro v hv
    have hv2 := distinctSorted_mem (List.take_subset _ _ hv)
    have hv3 := List.mem_filter.mp hv2
    have hb := Bool.and_eq_true_iff.mp hv3.2
    refine ⟨hb.1, ?_, hv3.1⟩
    have := hb.2
    simpa using this
  · intro v hv
    have hv2 := distinctSorted_mem (List.take_subset _ _ hv)
    have hv3 := List.mem_filter.mp hv2
    exact ⟨hv3.2, hv3.1⟩

theorem suggestions_guard_witness :
    (("a" : String).length < 2 ∧
        search_suggestions_endpoint c9db "a" 10 = ⟨[], [], [], []⟩) ∧
      (2 ≤ (pystrip "ab").length ∧
        search_suggestions_endpoint c9db "ab" 10 = get_search_suggestions c9db "ab" 10) :=
  ⟨⟨by decide, (suggestions_guard_and_lookup c9db "a" 10).1 (by decide)⟩,
    ⟨by decide, (suggestions_guard_and_lookup c9db "ab" 10).2.1 (by decide)⟩⟩

/-! ## C1: weighted relevance-ranked search -/

theorem relevance_ge_eight_of_title (q : String) (r : ExpRow)
    (h : likeContains q r.title = true) : 8 ≤ relevance q r := by
  unfold relevance
  rw [if_pos h]
  omega

theorem relevance_le_one_of_six_misses (q : String) (r : ExpRow)
    (h1 : likeContains q r.experiment_id = false)
    (h2 : likeContains q r.title = false)
    (h3 : likeContains q r.researcher = false)
    (h4 : likeContains q r.methods = false)
    (h5 : likeContains q r.results = false)
    (h6 : likeContains q r.observations = false) : relevance q r ≤ 1 := by
  unfold relevance
  rw [h1, h2, h3, h4, h5, h6]
  simp only [Bool.false_eq_true, if_false]
  split <;> omega

theorem search_mem_char (db : DB) (q : String) (lim : Nat) (x : Scored)
    (hx : x ∈ search_experiments db q lim) :
    x.relevance_score = relevance q x.row ∧ x.row ∈ db.experiments ∧
      matchesQuery q x.row = true := by
  unfold search_experiments at hx
  have hx2 : x ∈ List.insertionSort rankGE
      ((db.experiments.filter (matchesQuery q)).map (fun r => ⟨r, relevance q r⟩)) :=
    List.take_subset _ _ hx
  have hx3 := (List.mem_insertionSort _).mp hx2
  rcases List.mem_map.mp hx3 with ⟨r, hr, hxr⟩
  have hf := List.mem_filter.mp hr
  exact hxr ▸ ⟨rfl, hf.1, hf.2⟩

/-- C1 (amended): `search_experiments` returns (up to the result cap)
exactly the stored rows in which the query LIKE-matches at least one of the
7 fields experiment id, title, researcher, methods, results, observations,
raw text — `LIKE '%query%'`, ASCII-case-insensitive, `%` and `_` in the
query acting as wildcards, which for a wildcard-free query is
case-insensitive substring occurrence; each result's relevance score is the
weighted sum 10, 8, 6, 4, 4, 3, 1 over the matching fields; the output is
ordered by descending score with ties broken by descending creation time;
and a result whose title matches the query always precedes one matching it
in none of the six non-raw-text fields, regardless of creation order. -/
theorem search_ranking (db : DB) (q : String) (lim : Nat) :
    (∀ r : ExpRow,
      (db.experiments.filter (matchesQuery q)).length ≤ lim →
        ((∃ x ∈ search_experiments db q lim, x.row = r) ↔
          (r ∈ db.experiments ∧ matchesQuery q r = true))) ∧
      (∀ x ∈ search_experiments db q lim,
        x.relevance_score = relevance q x.row ∧
          x.row ∈ db.experiments ∧ matchesQuery q x.row = true) ∧
      List.Pairwise rankGE (search_experiments db q lim) ∧
      (∀ (i j : Nat) (hi : i < (search_experiments db q lim).length)
          (hj : j < (search_experiments db q lim).length),
        likeContains q ((search_experiments db q lim).get ⟨i, hi⟩).row.title = true →
        likeContains q ((search_experiments db q lim).get ⟨j, hj⟩).row.experiment_id = false →
        likeContains q ((search_experiments db q lim).get ⟨j, hj⟩).row.title = false →
        likeContains q ((search_experiments db q lim).get ⟨j, hj⟩).row.researcher = false →
        likeContains q ((search_experiments db q lim).get ⟨j, hj⟩).row.methods = false →
        likeContains q ((search_experiments db q lim).get ⟨j, hj⟩).row.results = false →
        likeContains q ((search_experiments db q lim).get ⟨j, hj⟩).row.observations = false →
        i < j) := by
  have hsorted : List.Pairwise rankGE (search_experiments db q lim) := by
    unfold search_experiments
    exact List.Pairwise.sublist (List.take_sublist _ _)
      (List.sorted_insertionSort rankGE _)
  refine ⟨?_, search_mem_char db q lim, hsorted, ?_⟩
  · intro r hlen
    constructor
    · rintro ⟨x, hx, rfl⟩
      exact (search_mem_char db q lim x hx).2
    · rintro ⟨hr, hm⟩
      have hrf : r ∈ db.experiments.filter (matchesQuery q) := List.mem_filter.mpr ⟨hr, hm⟩
      have hmap : (⟨r, relevance q r⟩ : Scored) ∈
          (db.experiments.filter (matchesQuery q)).map (fun r => ⟨r, relevance q r⟩) :=
        List.mem_map.mpr ⟨r, hrf, rfl⟩
      have hsort : (⟨r, relevance q r⟩ : Scored) ∈ List.insertionSort rankGE
          ((db.experiments.filter (matchesQuery q)).map (fun r => ⟨r, relevance q r⟩)) :=
        (List.mem_insertionSort _).mpr hmap
      have hall : (List.insertionSort rankGE
          ((db.experiments.filter (matchesQuery q)).map
            (fun r => ⟨r, relevance q r⟩))).take lim =
          List.insertionSort rankGE
            ((db.experiments.filter (matchesQuery q)).map (fun r => ⟨r, relevance q r⟩)) := by
        apply List.take_of_length_le
        rw [List.length_insertionSort, List.length_map]
        exact hlen
      refine ⟨⟨r, relevance q r⟩, ?_, rfl⟩
      unfold search_experiments
      rw [hall]
      exact hsort
  · intro i j hi hj ht h1 h2 h3 h4 h5 h6
    by_contra hij
    have hji : j ≤ i := Nat.le_of_not_lt hij
    have hgi := search_mem_char db q lim _ (List.get_mem (search_experiments db q lim) i hi)
    have hgj := search_mem_char db q lim _ (List.get_mem (search_experiments db q lim) j hj)
    have hsi : 8 ≤ ((search_experiments db q lim).get ⟨i, hi⟩).relevance_score := by
      rw [hgi.1]
      exact relevance_ge_eight_of_title q _ ht
    have hsj : ((search_experiments db q lim).get ⟨j, hj⟩).relevance_score ≤ 1 := by
      rw [hgj.1]
      exact relevance_le_one_of_six_misses q _ h1 h2 h3 h4 h5 h6
    rcases Nat.lt_or_ge j i with hlt | hge
    · have hrel := List.pairwise_iff_get.mp hsorted ⟨j, hj⟩ ⟨i, hi⟩ hlt
      unfold rankGE at hrel
      omega
    · have hij2 : i = j := Nat.le_antisymm hge hji
      subst hij2
      rw [ht] at h2
      cases h2

/-- Row of the C1 counterexample: the query `"temp"` LIKE-matches the title
`"Temperature study"` (ASCII case folding) but occurs literally in none of
the seven fields. -/
def cerow : ExpRow := ⟨"E9", "", "", "Temperature study", "", "", "", "", "", 0⟩

/-- Database of the C1 counterexample. -/
def cedb : DB := ⟨[cerow], [], []⟩

/-- C1 counterexample: searching for `"temp"` returns a record in which the
query occurs as a literal substring of none of the seven fields — SQL
`LIKE` is ASCII-case-insensitive, so `"temp"` matches the title
`"Temperature study"` — refuting the claim that search returns exactly the
records in which the query occurs as a substring of at least one field. -/
theorem search_substring_counterexample :
    (∃ x ∈ search_experiments cedb "temp" 50, x.row = cerow) ∧
      litSubstr "temp" cerow.experiment_id = false ∧
      litSubstr "temp" cerow.title = false ∧
      litSubstr "temp" cerow.researcher = false ∧
      litSubstr "temp" cerow.methods = false ∧
      litSubstr "temp" cerow.results = false ∧
      litSubstr "temp" cerow.observations = false ∧
      litSubstr "temp" cerow.raw_text = false := by
  decide

/-- Rows used by the C1 witness: `c1rowA` contains the query only in
`raw_text` but is newer; `c1rowB` contains it in `title` but is older. -/
def c1rowA : ExpRow := ⟨"A", "", "", "t", "", "", "", "zz here", "", 99⟩

/-- Second row of the C1 witness database. -/
def c1rowB : ExpRow := ⟨"B", "", "", "zz title", "", "", "", "doc", "", 1⟩

/-- Database of the C1 witness. -/
def c1db : DB := ⟨[c1rowA, c1rowB], [], []⟩

theorem search_ranking_witness :
    ((c1db.experiments.filter (matchesQuery "zz")).length ≤ 50 ∧
        ∃ x ∈ search_experiments c1db "zz" 50, x.row = c1rowA) ∧
      search_experiments c1db "zz" 50 = [⟨c1rowB, 8⟩, ⟨c1rowA, 1⟩] ∧
      (0 : Nat) < 1 :=
  ⟨⟨by decide, ((search_ranking c1db "zz" 50).1 c1rowA (by decide)).mpr (by decide)⟩,
    by decide,
    (search_ranking c1db "zz" 50).2.2.2 0 1 (by decide) (by decide) (by decide)
      (by decide) (by decide) (by decide) (by decide) (by decide) (by decide)⟩

/-! ## C3: content between section headers -/

theorem runLines_append (st : PState) (a b : List String) :
    runLines st (a ++ b) = runLines (runLines st a) b := by
  simp [runLines, List.foldl_append]

theorem lookupSec_cons (p : String × String) (t : List (String × String)) (k : String) :
    lookupSec (p :: t) k = if p.1 == k then some p.2 else lookupSec t k := by
  unfold lookupSec
  cases hp : (p.1 == k) <;> simp [List.find?, hp]

theorem lookup_set_self (m : List (String × String)) (k v : String)
    (h : m.any (fun p => p.1 == k) = true) :
    lookupSec (setSection m k v) k = some v := by
  unfold setSection
  rw [if_pos h]
  induction m with
  | nil => simp at h
  | cons p t ih =>
    rw [List.map_cons]
    by_cases hp : (p.1 == k) = true
    · rw [if_pos hp, lookupSec_cons]
      simp
    · rw [if_neg hp, lookupSec_cons, if_neg hp]
      apply ih
      rw [List.any_cons] at h
      simp only [hp, Bool.false_or] at h
      exact h

theorem lookup_map_set_ne (m : List (String × String)) (k v k' : String)
    (hne : k' ≠ k) :
    lookupSec (m.map (fun p => if p.1 == k then (k, v) else p)) k' = lookupSec m k' := by
  induction m with
  | nil => rfl
  | cons p t ih =>
    rw [List.map_cons, lookupSec_cons, lookupSec_cons]
    by_cases hp : (p.1 == k) = true
    · have hkk : ((k, v).1 == k') = false := by
        rw [beq_eq_false_iff_ne]
        exact fun hh => hne hh.symm
      have hpk : (p.1 == k') = false := by
        rw [beq_eq_false_iff_ne]
        rw [eq_of_beq hp]
        exact fun hh => hne hh.symm
      rw [if_pos hp, hkk, hpk]
      simp only [Bool.false_eq_true, if_false]
      exact ih
    · rw [if_neg hp]
      by_cases hq : (p.1 == k') = true
      · rw [if_pos hq, if_pos hq]
      · rw [if_neg hq, if_neg hq]
        exact ih

theorem lookup_append_single_ne (m : List (String × String)) (k v k' : String)
    (hne : k' ≠ k) :
    lookupSec (m ++ [(k, v)]) k' = lookupSec m k' := by
  induction m with
  | nil =>
    show lookupSec [(k, v)] k' = none
    rw [lookupSec_cons]
    have hkk : ((k, v).1 == k') = false := by
      rw [beq_eq_false_iff_ne]
      exact fun hh => hne hh.symm
    rw [hkk]
    simp only [Bool.false_eq_true, if_false]
    rfl
  | cons p t ih =>
    rw [List.cons_append, lookupSec_cons, lookupSec_cons]
    by_cases hq : (p.1 == k') = true
    · rw [if_pos hq, if_pos hq]
    · rw [if_neg hq, if_neg hq]
      exact ih

theorem lookup_set_ne (m : List (String × String)) (k v k' : String)
    (hne : k' ≠ k) :
    lookupSec (setSection m k v) k' = lookupSec m k' := by
  unfold setSection
  split
  · exact lookup_map_set_ne m k v k' hne
  · exact lookup_append_single_ne m k v k' hne

theorem flush_keep (s V : String) (st : PState) (hc : st.cur ≠ some s)
    (hl : lookupSec st.secs s = some V) :
    lookupSec (flushState st) s = some V := by
  obtain ⟨cur, buf, secs⟩ := st
  cases cur with
  | none => exact hl
  | some c =>
    have hcs : s ≠ c := by
      intro he
      exact hc (by rw [he])
    simp only [flushState]
    split
    · rw [lookup_set_ne secs c _ s hcs]
      exact hl
    · exact hl

theorem runLines_body (s : String) (body : List String)
    (hb : ∀ l ∈ body, headerOf (pystrip l) = none) :
    ∀ (buf : List String) (m : List (String × String)),
      runLines ⟨some s, buf, m⟩ body =
        ⟨some s, buf ++ (body.map pystrip).filter (fun x => x ≠ ""), m⟩ := by
  induction body with
  | nil =>
    intro buf m
    simp [runLines]
  | cons l body' ih =>
    intro buf m
    have hl := hb l (List.mem_cons_self l body')
    have hb' : ∀ x ∈ body', headerOf (pystrip x) = none :=
      fun x hx => hb x (List.mem_cons_of_mem l hx)
    show runLines (stepLine ⟨some s, buf, m⟩ l) body' = _
    by_cases h0 : pystrip l = ""
    · rw [stepLine_blank _ _ h0, ih hb' buf m]
      congr 1
      simp [h0]
    · rw [stepLine_plain _ _ h0 hl]
      show runLines ⟨some s, buf ++ [pystrip l], m⟩ body' = _
      rw [ih hb' (buf ++ [pystrip l]) m]
      congr 1
      rw [List.map_cons, List.filter_cons_of_pos (by simp [h0]), List.append_assoc]
      rfl

theorem runLines_keepout (s V : String) (ls : List String) :
    ∀ st : PState,
      (∀ l ∈ ls, (headerOf (pystrip l)).map Prod.fst ≠ some s) →
      st.cur ≠ some s →
      lookupSec st.secs s = some V →
      lookupSec (flushState (runLines st ls)) s = some V := by
  induction ls with
  | nil =>
    intro st _ hc hl
    exact flush_keep s V st hc hl
  | cons l ls' ih =>
    intro st hns hc hl
    have hns' : ∀ x ∈ ls', (headerOf (pystrip x)).map Prod.fst ≠ some s :=
      fun x hx => hns x (List.mem_cons_of_mem l hx)
    show lookupSec (flushState (runLines (stepLine st l) ls')) s = some V
    by_cases h0 : pystrip l = ""
    · rw [stepLine_blank _ _ h0]
      exact ih st hns' hc hl
    · cases hh : headerOf (pystrip l) with
      | none =>
        rw [stepLine_plain _ _ h0 hh]
        cases hcur : st.cur with
        | some c =>
          refine ih ⟨some c, st.buf ++ [pystrip l], st.secs⟩ hns' ?_ hl
          exact fun he => hc (hcur.trans he)
        | none =>
          exact ih st hns' hc hl
      | some p =>
        obtain ⟨s₃, n₃⟩ := p
        have hs₃ : some s₃ ≠ some s := by
          have := hns l (List.mem_cons_self _ _)
          rw [hh] at this
          simpa using this
        rw [stepLine_header _ _ _ _ hh]
        exact ih _ hns' hs₃ (flush_keep s V st hc hl)

/-- C9-independent helper: the seven-key invariant holds after any prefix of
the line scan starting from the initial state. -/
theorem runLines_init_keys (pre : List String) :
    (runLines ⟨none, [], initSections⟩ pre).secs.map Prod.fst = sectionNames ∧
      ∀ s, (runLines ⟨none, [], initSections⟩ pre).cur = some s → s ∈ sectionNames :=
  runLines_keys pre _ initSections_keys (by intro s hs; simp at hs)

/-- C3: every non-blank, non-header line lying between a recognized section
header (carrying no trailing content on the header line) and the next
recognized header is assigned entirely to the earlier header's section,
the stripped lines joined by newline and trimmed — provided that section is
not reopened later (reopening would overwrite the bucket, as the code's
dict assignment does). -/
theorem sections_between_headers (text : String)
    (pre body rest : List String) (h s : String) (n : Nat)
    (hsplit : splitNl text = pre ++ h :: (body ++ rest))
    (hh : headerOf (pystrip h) = some (s, n))
    (hseed : pystrip ⟨(pystrip h).data.drop n⟩ = "" ∨
      pystrip ⟨(pystrip h).data.drop n⟩ = ":")
    (hbody : ∀ l ∈ body, headerOf (pystrip l) = none)
    (hnb : ∃ l ∈ body, pystrip l ≠ "")
    (hrest : rest = [] ∨ ∃ l₂ rest' s₂ n₂, rest = l₂ :: rest' ∧
      headerOf (pystrip l₂) = some (s₂, n₂))
    (hnos : ∀ l ∈ rest, (headerOf (pystrip l)).map Prod.fst ≠ some s) :
    lookupSec (extract_sections text) s =
      some (pystrip (joinNl ((body.map pystrip).filter (fun x => x ≠ "")))) := by
  unfold extract_sections
  rw [hsplit, runLines_append]
  have hkeys := runLines_init_keys pre
  set st0 := runLines ⟨none, [], initSections⟩ pre with hst0
  have hm1keys : (flushState st0).map Prod.fst = sectionNames :=
    flush_keys st0 hkeys.1 hkeys.2
  have hany : (flushState st0).any (fun p => p.1 == s) = true :=
    anyKey _ _ (hm1keys ▸ headerOf_mem _ _ _ hh)
  have hstep : stepLine st0 h = ⟨some s, [], flushState st0⟩ := by
    rw [stepLine_header st0 h s n hh]
    congr 1
    rcases hseed with hs1 | hs1 <;> rw [hs1] <;> simp
  have hchain : runLines st0 (h :: (body ++ rest)) =
      runLines (stepLine st0 h) (body ++ rest) := rfl
  rw [hchain, hstep, runLines_append,
    runLines_body s body hbody [] (flushState st0), List.nil_append]
  set B := (body.map pystrip).filter (fun x => x ≠ "") with hB
  have hBne : B ≠ [] := by
    rcases hnb with ⟨l, hl, hlne⟩
    have : pystrip l ∈ B := by
      rw [hB]
      exact List.mem_filter.mpr ⟨List.mem_map.mpr ⟨l, hl, rfl⟩, by simpa using hlne⟩
    exact List.ne_nil_of_mem this
  rcases hrest with hre | ⟨l₂, rest', s₂, n₂, hre, hh₂⟩
  · subst hre
    show lookupSec (flushState ⟨some s, B, flushState st0⟩) s = _
    simp only [flushState]
    rw [if_pos hBne]
    exact lookup_set_self _ _ _ hany
  · subst hre
    have hs₂ : some s₂ ≠ some s := by
      have := hnos l₂ (List.mem_cons_self _ _)
      rw [hh₂] at this
      simpa using this
    have hflush : flushState ⟨some s, B, flushState st0⟩ =
        setSection (flushState st0) s (pystrip (joinNl B)) := by
      simp only [flushState]
      rw [if_pos hBne]
    have hstep₂ : runLines ⟨some s, B, flushState st0⟩ (l₂ :: rest') =
        runLines (stepLine ⟨some s, B, flushState st0⟩ l₂) rest' := rfl
    rw [hstep₂, stepLine_header _ _ _ _ hh₂]
    refine runLines_keepout s _ rest' _
      (fun x hx => hnos x (List.mem_cons_of_mem l₂ hx)) hs₂ ?_
    show lookupSec (flushState ⟨some s, B, flushState st0⟩) s = _
    rw [hflush]
    exact lookup_set_self _ _ _ hany

theorem sections_between_witness :
    lookupSec (extract_sections "Methods:\nDid X\nResults:\nSaw Y\n") "methods" =
        some "Did X" ∧
      lookupSec (extract_sections "Methods:\nDid X\nResults:\nSaw Y\n") "results" =
        some "Saw Y" :=
  ⟨(sections_between_headers "Methods:\nDid X\nResults:\nSaw Y\n"
      [] ["Did X"] ["Results:", "Saw Y", ""] "Methods:" "methods" 8
      (by decide) (by decide) (Or.inl (by decide)) (by decide)
      ⟨"Did X", by decide, by decide⟩
      (Or.inr ⟨"Results:", ["Saw Y", ""], "results", 8, rfl, by decide⟩)
      (by decide)).trans (by decide),
    (sections_between_headers "Methods:\nDid X\nResults:\nSaw Y\n"
      ["Methods:", "Did X"] ["Saw Y", ""] [] "Results:" "results" 8
      (by decide) (by decide) (Or.inl (by decide)) (by decide)
      ⟨"Saw Y", by decide, by decide⟩ (Or.inl rfl) (by decide)).trans (by decide)⟩
